import Mathlib

/-!
Shallow embedding of `src/main.py` (benpry/chain-server): a FastAPI service
over a MongoDB collection of "chain" records.  Each endpoint becomes a pure
Lean function on an explicit store state (a list of chain records); the
MongoDB aggregation pipeline used for chain selection is embedded as
filtering, grouping by load key, and sampling from the minimal group.
-/

namespace ChainServer

/-- A chain record as stored in the MongoDB collection (see `set_up_chains`
in `src/main.py`: fields `condition`, `messages`, `busy`, `writes`, `reads`,
plus the store-assigned `_id`, modelled as a natural number). -/
structure Chain where
  id : Nat
  condition : String
  messages : List String
  busy : Bool
  writes : Nat
  reads : Nat
deriving Repr, DecidableEq

/-- One pattern character of the condition regex matches one subject
character: `.` matches any character, every other character matches itself.
This models the fragment of the PCRE dialect used by MongoDB `$regex`
generated by literal characters and the `.` wildcard, which covers the
condition keys of this deployment (alphanumerics and dots). -/
def regexCharMatch (p c : Char) : Bool :=
  p = '.' || p = c

/-- Anchored-at-start regex match: does the pattern match some leading
segment of the subject?  This is the semantics of MongoDB
`\x7b"$regex": "^" + condition\x7d` for patterns in the modelled fragment. -/
def regexAnchoredMatch : List Char → List Char → Bool
  | [], _ => true
  | _ :: _, [] => false
  | p :: ps, c :: cs => regexCharMatch p c && regexAnchoredMatch ps cs

/-- The condition filter of `sample_chain_to_write` / `sample_chain_to_read`:
`"condition": \x7b"$regex": f"^\x7bcondition\x7d"\x7d`. -/
def conditionMatches (key : String) (cond : String) : Bool :=
  regexAnchoredMatch key.data cond.data

/-- Literal string-prefix matching, written from the spec's words
("exact-match or prefix-match against the `condition` field"); used to
compare the source's regex-based filter against the spec's description. -/
def literalPrefixMatch : List Char → List Char → Bool
  | [], _ => true
  | _ :: _, [] => false
  | p :: ps, c :: cs => p = c && literalPrefixMatch ps cs

/-- The `$match` stage of `sample_chain_to_write`: condition regex and
`"busy": False`. -/
def eligibleToWrite (key : String) (c : Chain) : Bool :=
  conditionMatches key c.condition && !c.busy

/-- The `$match` stage of `sample_chain_to_read`: condition regex,
`"busy": False` and `"writes": \x7b"$gt": 0\x7d`. -/
def eligibleToRead (key : String) (c : Chain) : Bool :=
  conditionMatches key c.condition && !c.busy && decide (0 < c.writes)

/-- The load key the aggregation sorts groups by:
`\x7b"_id.writes": 1, "_id.reads": 1\x7d`, i.e. writes first, then reads. -/
def loadKey (c : Chain) : Nat × Nat :=
  (c.writes, c.reads)

/-- Lexicographic comparison of load keys, as produced by the two-field
ascending `$sort` of the pipeline. -/
def keyLe (a b : Nat × Nat) : Bool :=
  decide (a.1 < b.1) || (decide (a.1 = b.1) && decide (a.2 ≤ b.2))

/-- The pipeline stages `$group` by `(reads, writes)`, `$sort` by
`(writes, reads)` ascending and `$limit: 1` together select the group of
eligible chains whose load key is lexicographically minimal.  This is that
group: the eligible chains whose key is `keyLe`-below every eligible
chain's key. -/
def minimalPool (elig : Chain → Bool) (db : List Chain) : List Chain :=
  let cands := db.filter elig
  cands.filter (fun c => cands.all (fun d => keyLe (loadKey c) (loadKey d)))

/-- Model of `$sample: \x7b"size": 1\x7d` followed by `list(...)[0]`: pick one member
of the pool.  The uniform random draw is modelled by an arbitrary choice
index (reduced mod the pool size); on an empty pool the source's
`list(collection.aggregate(pipeline))[0]` raises an uncaught `IndexError`,
modelled as `none`. -/
def sampleFrom (pool : List Chain) (choice : Nat) : Option Chain :=
  pool[choice % pool.length]?

/-- Embedding of `sample_chain_to_write` of `src/main.py`: run the aggregation pipeline
(match not-busy chains whose condition matches the regex, group by load
key, keep the minimal group, sample one) and take element 0 of the result
list. -/
def sample_chain_to_write (db : List Chain) (condition : String) (choice : Nat) : Option Chain :=
  sampleFrom (minimalPool (eligibleToWrite condition) db) choice

/-- Embedding of `sample_chain_to_read` of `src/main.py`: same pipeline with the extra
`writes > 0` filter. -/
def sample_chain_to_read (db : List Chain) (condition : String) (choice : Nat) : Option Chain :=
  sampleFrom (minimalPool (eligibleToRead condition) db) choice

/-- Embedding of `collection.find_one(\x7b"_id": id\x7d)`: the (first, hence unique)
record whose `_id` equals `id`. -/
def find_one (db : List Chain) (id : Nat) : Option Chain :=
  match db with
  | [] => none
  | c :: cs => if c.id = id then some c else find_one cs id

/-- Embedding of `collection.update_one(\x7b"_id": id\x7d, \x7b"$set": ...\x7d)`:
rewrite the (first, hence unique) record with the given id by `f`. -/
def updateById (db : List Chain) (id : Nat) (f : Chain → Chain) : List Chain :=
  match db with
  | [] => []
  | c :: cs => if c.id = id then f c :: cs else c :: updateById cs id f

/-- Result of the `/assign/...` endpoints.  `indexError` models the uncaught
Python `IndexError` raised by `list(collection.aggregate(pipeline))[0]` when
the pipeline matches nothing; the source's `if chain is None: return 404`
branch is unreachable because the helper raises instead of returning
`None`. -/
inductive AssignResult where
  | ok : Chain → AssignResult
  | indexError : AssignResult
deriving Repr, DecidableEq

/-- Embedding of `assign_to_chain` (GET `/assign/{condition}`, the Claim operation):
sample an eligible chain, set `busy = True` on the sampled copy, write the
whole copy back with `update_one` filtered only on `_id`, and return the
mutated copy. -/
def assign_to_chain (db : List Chain) (condition : String) (choice : Nat) :
    AssignResult × List Chain :=
  match sample_chain_to_write db condition choice with
  | none => (.indexError, db)
  | some c =>
    let c' := { c with busy := true }
    (.ok c', updateById db c.id (fun _ => c'))

/-- The read phase of `assign_to_chain` in isolation (line 69 of
`src/main.py`): the aggregation sample, with no store write. -/
def claimReadPhase (db : List Chain) (condition : String) (choice : Nat) : Option Chain :=
  sample_chain_to_write db condition choice

/-- The write phase of `assign_to_chain` in isolation (lines 73–74 of
`src/main.py`): set `busy = True` on the previously fetched copy `c` and
`update_one(\x7b"_id": c._id\x7d, \x7b"$set": c\x7d)` — the filter checks
only `_id`, not `busy`, so the write is unconditional. -/
def claimWritePhase (db : List Chain) (c : Chain) : AssignResult × List Chain :=
  let c' := { c with busy := true }
  (.ok c', updateById db c.id (fun _ => c'))

/-- Two Claim requests for the same condition interleaved as: request 1
reads, request 2 reads, request 1 writes, request 2 writes.  Each phase is
one atomic store operation of the source; the interleaving exposes the
read-then-write pattern of `assign_to_chain`. -/
def claimRace (db : List Chain) (condition : String) (ch1 ch2 : Nat) :
    AssignResult × AssignResult × List Chain :=
  match claimReadPhase db condition ch1, claimReadPhase db condition ch2 with
  | some a, some b =>
    let r1 := claimWritePhase db a
    let r2 := claimWritePhase r1.2 b
    (r1.1, r2.1, r2.2)
  | some a, none =>
    let r1 := claimWritePhase db a
    (r1.1, .indexError, r1.2)
  | none, some b =>
    let r2 := claimWritePhase db b
    (.indexError, r2.1, r2.2)
  | none, none => (.indexError, .indexError, db)

/-- Embedding of `assign_to_chain_no_busy` (GET `/assign/no-busy/{condition}`, the Peek
operation): sample a readable chain and return it; no store write occurs. -/
def assign_to_chain_no_busy (db : List Chain) (condition : String) (choice : Nat) :
    AssignResult :=
  match sample_chain_to_read db condition choice with
  | none => .indexError
  | some c => .ok c

/-- Result of POST `/free/{chain_id}`. -/
inductive FreeResult where
  | acknowledged : FreeResult
  | notFound : FreeResult
deriving Repr, DecidableEq

/-- Embedding of `free_chain` (POST `/free/{chain_id}`, the Release operation): 404 when
the id does not exist, otherwise `update_one` setting only `busy = False`;
`messages`, `writes` and `reads` are not touched. -/
def free_chain (db : List Chain) (id : Nat) : FreeResult × List Chain :=
  match find_one db id with
  | none => (.notFound, db)
  | some _ => (.acknowledged, updateById db id (fun c => { c with busy := false }))

/-- Result of POST `/chain/complete/{chain_id}`. -/
inductive CompleteResult where
  | acknowledged : CompleteResult
  | chainNotFound : CompleteResult
  | chainNotInUse : CompleteResult
deriving Repr, DecidableEq

/-- Embedding of `add_message_to_chain` (POST `/chain/complete/{chain_id}`, the Complete
operation): fetch the record; "chain not found" when missing; "chain not in
use" when not busy (no write happens); otherwise append the message, clear
`busy`, increment `writes` and `reads`, and write the whole record back in
one `update_one`. -/
def add_message_to_chain (db : List Chain) (id : Nat) (message : String) :
    CompleteResult × List Chain :=
  match find_one db id with
  | none => (.chainNotFound, db)
  | some c =>
    if !c.busy then (.chainNotInUse, db)
    else
      let c' := { c with messages := c.messages ++ [message], busy := false,
                         writes := c.writes + 1, reads := c.reads + 1 }
      (.acknowledged, updateById db id (fun _ => c'))

/-- Result of POST `/chain/read/{chain_id}`.  `typeError` models the
uncaught Python `TypeError` raised by `chain["reads"] += 1` when `find_one`
returned `None`: unlike the other endpoints, `update_chain_read_count` has
no missing-id check. -/
inductive ReadCountResult where
  | acknowledged : ReadCountResult
  | typeError : ReadCountResult
deriving Repr, DecidableEq

/-- Embedding of `update_chain_read_count` (POST `/chain/read/{chain_id}`, the RecordRead
operation): fetch the record and increment `reads`; no `None` check guards
the fetch. -/
def update_chain_read_count (db : List Chain) (id : Nat) :
    ReadCountResult × List Chain :=
  match find_one db id with
  | none => (.typeError, db)
  | some c =>
    (.acknowledged, updateById db id (fun _ => { c with reads := c.reads + 1 }))

/-- One freshly created record of `set_up_chains`: condition as given,
empty `messages`, not busy, both counters zero. -/
def newChain (cond : String) (i : Nat) : Chain :=
  { id := i, condition := cond, messages := [], busy := false, writes := 0, reads := 0 }

/-- The `to_insert` list of `set_up_chains`: `n` fresh records per
condition, in condition order, with store-assigned ids starting at
`start`. -/
def setupRecords : List String → Nat → Nat → List Chain
  | [], _, _ => []
  | cond :: conds, n, start =>
    (List.range n).map (fun j => newChain cond (start + j)) ++ setupRecords conds n (start + n)

/-- The whole store state: the `chains` collection plus the id counter the
store uses to assign fresh `_id`s on insert. -/
structure DB where
  chains : List Chain
  nextId : Nat
deriving Repr, DecidableEq

/-- The empty store. -/
def DB.empty : DB := { chains := [], nextId := 0 }

/-- Embedding of `set_up_chains` (POST `/setup`): bulk-insert the fresh records. -/
def set_up_chains (db : DB) (conditions : List String) (nPer : Nat) : DB :=
  { chains := db.chains ++ setupRecords conditions nPer db.nextId,
    nextId := db.nextId + conditions.length * nPer }

/-- Embedding of `delete_all_chains` (DELETE `/demolish`): remove every record. -/
def delete_all_chains (db : DB) : DB :=
  { chains := [], nextId := db.nextId }

/-- One request to the service, with the nondeterministic sample choice of
the `$sample` stage made explicit as an index. -/
inductive Op where
  | setup : List String → Nat → Op
  | claim : String → Nat → Op
  | peek : String → Nat → Op
  | complete : Nat → String → Op
  | release : Nat → Op
  | recordRead : Nat → Op
deriving Repr, DecidableEq

/-- The store state after serving one request. -/
def applyOp (db : DB) : Op → DB
  | .setup conds n => set_up_chains db conds n
  | .claim cond choice => { db with chains := (assign_to_chain db.chains cond choice).2 }
  | .peek _ _ => db
  | .complete id msg => { db with chains := (add_message_to_chain db.chains id msg).2 }
  | .release id => { db with chains := (free_chain db.chains id).2 }
  | .recordRead id => { db with chains := (update_chain_read_count db.chains id).2 }

/-- The store state after serving a sequence of requests, starting from the
empty store. -/
def run (ops : List Op) : DB :=
  ops.foldl applyOp DB.empty

/-! ### Helper lemmas about the store primitives -/

theorem sampleFrom_mem {pool : List Chain} {choice : Nat} {c : Chain}
    (h : sampleFrom pool choice = some c) : c ∈ pool :=
  List.getElem?_mem h

theorem minimalPool_sound {elig : Chain → Bool} {db : List Chain} {c : Chain}
    (h : c ∈ minimalPool elig db) :
    c ∈ db ∧ elig c = true ∧
      ∀ d ∈ db, elig d = true → keyLe (loadKey c) (loadKey d) = true := by
  simp only [minimalPool, List.mem_filter, List.all_eq_true] at h
  obtain ⟨⟨hmem, helig⟩, hmin⟩ := h
  exact ⟨hmem, helig, fun d hd hde => hmin d ⟨hd, hde⟩⟩

theorem keyLe_iff {a b : Nat × Nat} :
    keyLe a b = true ↔ (a.1 < b.1 ∨ (a.1 = b.1 ∧ a.2 ≤ b.2)) := by
  simp [keyLe]

theorem eligibleToWrite_iff {key : String} {c : Chain} :
    eligibleToWrite key c = true ↔
      (conditionMatches key c.condition = true ∧ c.busy = false) := by
  simp [eligibleToWrite]

theorem eligibleToRead_iff {key : String} {c : Chain} :
    eligibleToRead key c = true ↔
      (conditionMatches key c.condition = true ∧ c.busy = false ∧ 0 < c.writes) := by
  simp [eligibleToRead, and_assoc]

theorem find_one_id {db : List Chain} {id : Nat} {c : Chain}
    (h : find_one db id = some c) : c.id = id := by
  induction db with
  | nil => simp [find_one] at h
  | cons x xs ih =>
    by_cases hx : x.id = id
    · simp only [find_one, if_pos hx] at h
      cases h
      exact hx
    · simp only [find_one, if_neg hx] at h
      exact ih h

theorem mem_of_find_one {db : List Chain} {id : Nat} {c : Chain}
    (h : find_one db id = some c) : c ∈ db := by
  induction db with
  | nil => simp [find_one] at h
  | cons x xs ih =>
    by_cases hx : x.id = id
    · simp only [find_one, if_pos hx] at h
      cases h
      exact List.mem_cons_self _ _
    · simp only [find_one, if_neg hx] at h
      exact List.mem_cons_of_mem _ (ih h)

theorem mem_updateById_of_ne {db : List Chain} {id : Nat} {f : Chain → Chain} {d : Chain}
    (hd : d ∈ db) (hne : d.id ≠ id) : d ∈ updateById db id f := by
  induction db with
  | nil => cases hd
  | cons x xs ih =>
    rcases List.mem_cons.mp hd with rfl | h
    · simp only [updateById, if_neg hne]
      exact List.mem_cons_self _ _
    · by_cases hx : x.id = id
      · simp only [updateById, if_pos hx]
        exact List.mem_cons_of_mem _ h
      · simp only [updateById, if_neg hx]
        exact List.mem_cons_of_mem _ (ih h)

theorem find_one_updateById {db : List Chain} {id : Nat} {f : Chain → Chain} {c : Chain}
    (h : find_one db id = some c) (hf : (f c).id = c.id) :
    find_one (updateById db id f) id = some (f c) := by
  induction db with
  | nil => simp [find_one] at h
  | cons x xs ih =>
    by_cases hx : x.id = id
    · simp only [find_one, if_pos hx] at h
      cases h
      simp only [updateById, if_pos hx, find_one, hf, if_pos hx]
    · simp only [find_one, if_neg hx] at h
      simp only [updateById, if_neg hx, find_one, if_neg hx]
      exact ih h

theorem updateById_eq_self {db : List Chain} {id : Nat} {f : Chain → Chain} {c : Chain}
    (h : find_one db id = some c) (hfc : f c = c) : updateById db id f = db := by
  induction db with
  | nil => rfl
  | cons x xs ih =>
    by_cases hx : x.id = id
    · simp only [find_one, if_pos hx] at h
      cases h
      simp only [updateById, if_pos hx, hfc]
    · simp only [find_one, if_neg hx] at h
      simp only [updateById, if_neg hx, ih h]

/-! ### C1: selection returns an eligible chain of minimal load -/

/-- C1: whenever the Claim sampler (`sample_chain_to_write`) or the Peek
sampler (`sample_chain_to_read`) returns a chain, that chain is in the
store, satisfies the eligibility filters (condition regex match, not busy,
and for the read sampler `writes > 0`), and its `(writes, reads)` pair is
lexicographically minimal among all stored chains satisfying those same
filters; this holds for every value of the random sample choice, so the
choice among equally minimal chains is the only nondeterminism. -/
theorem sample_minimal_eligible :
    ∀ (db : List Chain) (cond : String) (choice : Nat) (c : Chain),
      (sample_chain_to_write db cond choice = some c →
        c ∈ db ∧ conditionMatches cond c.condition = true ∧ c.busy = false ∧
          ∀ d ∈ db, conditionMatches cond d.condition = true → d.busy = false →
            (c.writes < d.writes ∨ (c.writes = d.writes ∧ c.reads ≤ d.reads))) ∧
      (sample_chain_to_read db cond choice = some c →
        c ∈ db ∧ conditionMatches cond c.condition = true ∧ c.busy = false ∧
          0 < c.writes ∧
          ∀ d ∈ db, conditionMatches cond d.condition = true → d.busy = false →
            0 < d.writes →
            (c.writes < d.writes ∨ (c.writes = d.writes ∧ c.reads ≤ d.reads))) := by
  intro db cond choice c
  constructor
  · intro h
    obtain ⟨hmem, helig, hmin⟩ := minimalPool_sound (sampleFrom_mem h)
    obtain ⟨hcond, hbusy⟩ := eligibleToWrite_iff.mp helig
    refine ⟨hmem, hcond, hbusy, fun d hd hdc hdb => ?_⟩
    have := keyLe_iff.mp (hmin d hd (eligibleToWrite_iff.mpr ⟨hdc, hdb⟩))
    simpa [loadKey] using this
  · intro h
    obtain ⟨hmem, helig, hmin⟩ := minimalPool_sound (sampleFrom_mem h)
    obtain ⟨hcond, hbusy, hw⟩ := eligibleToRead_iff.mp helig
    refine ⟨hmem, hcond, hbusy, hw, fun d hd hdc hdb hdw => ?_⟩
    have := keyLe_iff.mp (hmin d hd (eligibleToRead_iff.mpr ⟨hdc, hdb, hdw⟩))
    simpa [loadKey] using this

/-- Concrete pool for the C1 witness: a chain with one write and a fresh
chain, both Free, conditions "A.1" and "A.2". -/
def dbC1 : List Chain :=
  [⟨0, "A.1", ["m"], false, 1, 2⟩, ⟨1, "A.2", [], false, 0, 0⟩]

/-- Witness for C1 at a concrete pool: the write sampler picks the fresh
chain (load (0,0)), the read sampler picks the written-to chain (the only
one with `writes > 0`). -/
theorem sample_minimal_eligible_witness :
    ((⟨1, "A.2", [], false, 0, 0⟩ : Chain) ∈ dbC1 ∧
      conditionMatches "A" "A.2" = true ∧ (false : Bool) = false ∧
      ∀ d ∈ dbC1, conditionMatches "A" d.condition = true → d.busy = false →
        (0 < d.writes ∨ (0 = d.writes ∧ 0 ≤ d.reads))) ∧
    ((⟨0, "A.1", ["m"], false, 1, 2⟩ : Chain) ∈ dbC1 ∧
      conditionMatches "A" "A.1" = true ∧ (false : Bool) = false ∧ 0 < 1 ∧
      ∀ d ∈ dbC1, conditionMatches "A" d.condition = true → d.busy = false →
        0 < d.writes →
        (1 < d.writes ∨ (1 = d.writes ∧ 2 ≤ d.reads))) :=
  ⟨(sample_minimal_eligible dbC1 "A" 0 ⟨1, "A.2", [], false, 0, 0⟩).1 (by decide),
   (sample_minimal_eligible dbC1 "A" 0 ⟨0, "A.1", ["m"], false, 1, 2⟩).2 (by decide)⟩

/-! ### C3 and C4: the Complete operation -/

/-- C3: on a chain that exists and is Busy, Complete
(`add_message_to_chain`) acknowledges, and in the resulting store — reached
in one transition, with no intermediate state — the chain's record has
`message` appended as the single new last element of `messages`, the write
counter incremented by one, the read counter incremented by one, and
`busy = False`; every record with a different id is untouched. -/
theorem complete_busy_effects (db : List Chain) (id : Nat) (msg : String) (c : Chain)
    (hfind : find_one db id = some c) (hbusy : c.busy = true) :
    (add_message_to_chain db id msg).1 = CompleteResult.acknowledged ∧
    find_one (add_message_to_chain db id msg).2 id =
      some { c with messages := c.messages ++ [msg], busy := false,
                    writes := c.writes + 1, reads := c.reads + 1 } ∧
    ∀ d ∈ db, d.id ≠ id → d ∈ (add_message_to_chain db id msg).2 := by
  simp only [add_message_to_chain, hfind, hbusy, Bool.not_true, Bool.false_eq_true,
    if_false]
  exact ⟨trivial, find_one_updateById hfind rfl, fun d hd hne => mem_updateById_of_ne hd hne⟩

/-- Witness for C3: a two-chain store where chain 0 is Busy; completing it
with "y" appends the message, bumps both counters and frees the chain. -/
theorem complete_busy_effects_witness :
    (add_message_to_chain [⟨0, "A", ["x"], true, 1, 1⟩, ⟨1, "A", [], false, 0, 0⟩]
        0 "y").1 = CompleteResult.acknowledged ∧
    find_one (add_message_to_chain [⟨0, "A", ["x"], true, 1, 1⟩, ⟨1, "A", [], false, 0, 0⟩]
        0 "y").2 0 = some ⟨0, "A", ["x", "y"], false, 2, 2⟩ ∧
    ∀ d ∈ ([⟨0, "A", ["x"], true, 1, 1⟩, ⟨1, "A", [], false, 0, 0⟩] : List Chain),
      d.id ≠ 0 →
      d ∈ (add_message_to_chain [⟨0, "A", ["x"], true, 1, 1⟩, ⟨1, "A", [], false, 0, 0⟩]
        0 "y").2 :=
  complete_busy_effects [⟨0, "A", ["x"], true, 1, 1⟩, ⟨1, "A", [], false, 0, 0⟩]
    0 "y" ⟨0, "A", ["x"], true, 1, 1⟩ (by decide) (by decide)

/-- C4: on a chain that exists but is not Busy, Complete
(`add_message_to_chain`) returns the "chain not in use" outcome and the
store is returned exactly as it was, so every field of every chain —
messages, counters, state, condition, id — is unchanged. -/
theorem complete_not_busy_noop (db : List Chain) (id : Nat) (msg : String) (c : Chain)
    (hfind : find_one db id = some c) (hbusy : c.busy = false) :
    add_message_to_chain db id msg = (CompleteResult.chainNotInUse, db) := by
  simp [add_message_to_chain, hfind, hbusy]

/-- Witness for C4: completing a Free chain reports "chain not in use" and
leaves the store intact. -/
theorem complete_not_busy_noop_witness :
    add_message_to_chain [⟨5, "B", ["m"], false, 1, 3⟩] 5 "extra" =
      (CompleteResult.chainNotInUse, [⟨5, "B", ["m"], false, 1, 3⟩]) :=
  complete_not_busy_noop [⟨5, "B", ["m"], false, 1, 3⟩] 5 "extra"
    ⟨5, "B", ["m"], false, 1, 3⟩ (by decide) (by decide)

/-! ### C5: missing-result handling of Claim, Peek and RecordRead -/

/-- C5 (code evaluated at the failing inputs): on an empty pool the Claim
and Peek endpoints hit the uncaught `IndexError` of
`list(collection.aggregate(pipeline))[0]` instead of a "no eligible chain"
outcome (the `return 404` guard is unreachable because the sampler raises
rather than returning `None`), and RecordRead on a missing id hits the
uncaught `TypeError` of `chain["reads"] += 1` on `None` instead of a
"not found" outcome. -/
theorem unhandled_empty_and_missing :
    assign_to_chain [] "A" 0 = (AssignResult.indexError, []) ∧
    assign_to_chain_no_busy [] "A" 0 = AssignResult.indexError ∧
    update_chain_read_count [] 0 = (ReadCountResult.typeError, []) ∧
    update_chain_read_count [⟨1, "B", [], false, 0, 0⟩] 0 =
      (ReadCountResult.typeError, [⟨1, "B", [], false, 0, 0⟩]) := by
  decide

/-! ### C6: the Release operation and the read counter -/

/-- Counterexample to C6: releasing an existing chain whose read counter is
5 leaves the counter at 5; it is not incremented to 6 as the claim
states. -/
theorem release_does_not_increment_reads :
    (free_chain [⟨0, "A", ["m"], true, 1, 5⟩] 0).1 = FreeResult.acknowledged ∧
    find_one (free_chain [⟨0, "A", ["m"], true, 1, 5⟩] 0).2 0 =
      some ⟨0, "A", ["m"], false, 1, 5⟩ ∧
    ¬ find_one (free_chain [⟨0, "A", ["m"], true, 1, 5⟩] 0).2 0 =
      some ⟨0, "A", ["m"], false, 1, 6⟩ := by
  decide

/-- C6 as amended: for every existing chain, Release (`free_chain`)
acknowledges and sets `busy = False` without appending any message, without
incrementing the write counter, and without changing the read counter; all
fields other than `busy` keep their values, and records with other ids are
untouched. -/
theorem release_only_clears_busy (db : List Chain) (id : Nat) (c : Chain)
    (hfind : find_one db id = some c) :
    (free_chain db id).1 = FreeResult.acknowledged ∧
    find_one (free_chain db id).2 id = some { c with busy := false } ∧
    ∀ d ∈ db, d.id ≠ id → d ∈ (free_chain db id).2 := by
  simp only [free_chain, hfind]
  refine ⟨trivial, ?_, fun d hd hne => mem_updateById_of_ne hd hne⟩
  exact find_one_updateById hfind rfl

/-- Witness for the amended C6: releasing a Busy chain with counters (1,5)
gives the same record with `busy = False` and the counters still (1,5). -/
theorem release_only_clears_busy_witness :
    (free_chain [⟨0, "A", ["m"], true, 1, 5⟩, ⟨1, "B", [], false, 0, 0⟩] 0).1 =
      FreeResult.acknowledged ∧
    find_one (free_chain [⟨0, "A", ["m"], true, 1, 5⟩, ⟨1, "B", [], false, 0, 0⟩] 0).2 0 =
      some ⟨0, "A", ["m"], false, 1, 5⟩ ∧
    ∀ d ∈ ([⟨0, "A", ["m"], true, 1, 5⟩, ⟨1, "B", [], false, 0, 0⟩] : List Chain),
      d.id ≠ 0 →
      d ∈ (free_chain [⟨0, "A", ["m"], true, 1, 5⟩, ⟨1, "B", [], false, 0, 0⟩] 0).2 :=
  release_only_clears_busy [⟨0, "A", ["m"], true, 1, 5⟩, ⟨1, "B", [], false, 0, 0⟩] 0
    ⟨0, "A", ["m"], true, 1, 5⟩ (by decide)

/-! ### C10: Release is unconditional and idempotent -/

/-- C10: Release (`free_chain`) has no state precondition and is
idempotent: on any existing chain it acknowledges whether the chain is Busy
or Free, releasing twice leaves the store exactly as releasing once, and
releasing an already-Free chain changes nothing at all. -/
theorem release_idempotent (db : List Chain) (id : Nat) (c : Chain)
    (hfind : find_one db id = some c) :
    (free_chain db id).1 = FreeResult.acknowledged ∧
    free_chain (free_chain db id).2 id = (FreeResult.acknowledged, (free_chain db id).2) ∧
    (c.busy = false → free_chain db id = (FreeResult.acknowledged, db)) := by
  have hunfold : ∀ (l : List Chain) (d : Chain), find_one l id = some d →
      free_chain l id =
        (FreeResult.acknowledged, updateById l id (fun x => { x with busy := false })) := by
    intro l d h
    simp only [free_chain, h]
  have hfind2 : find_one (free_chain db id).2 id = some { c with busy := false } := by
    rw [hunfold db c hfind]
    exact find_one_updateById hfind rfl
  refine ⟨by rw [hunfold db c hfind], ?_, ?_⟩
  · rw [hunfold _ _ hfind2, updateById_eq_self hfind2 rfl]
  · intro hbusy
    have hc : ({ c with busy := false } : Chain) = c := by
      cases c
      simp_all
    rw [hunfold db c hfind, updateById_eq_self hfind hc]

/-- Witness for C10: a Busy chain and a Free chain; releasing the Busy one
acknowledges and is idempotent, and releasing the Free one is a complete
no-op. -/
theorem release_idempotent_witness :
    ((free_chain [⟨0, "A", [], true, 0, 0⟩] 0).1 = FreeResult.acknowledged ∧
      free_chain (free_chain [⟨0, "A", [], true, 0, 0⟩] 0).2 0 =
        (FreeResult.acknowledged, (free_chain [⟨0, "A", [], true, 0, 0⟩] 0).2)) ∧
    free_chain [⟨2, "B", ["m"], false, 1, 1⟩] 2 =
      (FreeResult.acknowledged, [⟨2, "B", ["m"], false, 1, 1⟩]) :=
  ⟨⟨(release_idempotent [⟨0, "A", [], true, 0, 0⟩] 0 ⟨0, "A", [], true, 0, 0⟩
      (by decide)).1,
    (release_idempotent [⟨0, "A", [], true, 0, 0⟩] 0 ⟨0, "A", [], true, 0, 0⟩
      (by decide)).2.1⟩,
   (release_idempotent [⟨2, "B", ["m"], false, 1, 1⟩] 2 ⟨2, "B", ["m"], false, 1, 1⟩
      (by decide)).2.2 (by decide)⟩

/-! ### C7: two racing Claims on the same Free chain -/

/-- C7 (code evaluated at the failing interleaving): on a pool with a
single Free chain, two Claim requests interleaved as read/read/write/write
BOTH observe success and BOTH are handed the same chain.  The write phase
is `update_one` filtered only on `_id` — an unconditional read-then-write,
not a conditional update — so neither request detects the other. -/
theorem claim_race_both_succeed :
    claimRace [⟨0, "A", [], false, 0, 0⟩] "A" 0 0 =
      (AssignResult.ok ⟨0, "A", [], true, 0, 0⟩,
       AssignResult.ok ⟨0, "A", [], true, 0, 0⟩,
       [⟨0, "A", [], true, 0, 0⟩]) := by
  decide

/-! ### C8: Peek changes nothing -/

/-- C8: Peek (`assign_to_chain_no_busy`) performs no store write, so any
number of Peek requests (each with its condition key and sample choice)
leaves the store state exactly as it was; in particular on an all-Free pool
every chain is still Free afterwards. -/
theorem peek_preserves_store :
    ∀ (ks : List (String × Nat)) (db : DB),
      List.foldl applyOp db (ks.map (fun k => Op.peek k.1 k.2)) = db ∧
      ((∀ c ∈ db.chains, c.busy = false) →
        ∀ c ∈ (List.foldl applyOp db (ks.map (fun k => Op.peek k.1 k.2))).chains,
          c.busy = false) := by
  intro ks
  induction ks with
  | nil => exact fun db => ⟨rfl, fun h => h⟩
  | cons k ks ih =>
    intro db
    have hstep : applyOp db (Op.peek k.1 k.2) = db := rfl
    constructor
    · simpa [hstep] using (ih db).1
    · intro hfree
      have heq : List.foldl applyOp db ((k :: ks).map (fun k => Op.peek k.1 k.2)) = db := by
        simpa [hstep] using (ih db).1
      rw [heq]
      exact hfree

/-- Witness for C8: two Peeks on a two-chain all-Free pool return the store
unchanged and all-Free. -/
theorem peek_preserves_store_witness :
    List.foldl applyOp ⟨[⟨0, "A", ["m"], false, 1, 0⟩, ⟨1, "A", [], false, 0, 0⟩], 2⟩
        ([("A", 0), ("A", 1)].map (fun k => Op.peek k.1 k.2)) =
      ⟨[⟨0, "A", ["m"], false, 1, 0⟩, ⟨1, "A", [], false, 0, 0⟩], 2⟩ ∧
    ∀ c ∈ (List.foldl applyOp
        ⟨[⟨0, "A", ["m"], false, 1, 0⟩, ⟨1, "A", [], false, 0, 0⟩], 2⟩
        ([("A", 0), ("A", 1)].map (fun k => Op.peek k.1 k.2))).chains,
      c.busy = false :=
  ⟨(peek_preserves_store [("A", 0), ("A", 1)]
      ⟨[⟨0, "A", ["m"], false, 1, 0⟩, ⟨1, "A", [], false, 0, 0⟩], 2⟩).1,
   (peek_preserves_store [("A", 0), ("A", 1)]
      ⟨[⟨0, "A", ["m"], false, 1, 0⟩, ⟨1, "A", [], false, 0, 0⟩], 2⟩).2 (by decide)⟩

/-! ### C9: condition matching is regex matching, not literal prefix -/

/-- Counterexample to C9: the query key is spliced into a regular
expression, so `.` in the key matches any character: the chain with
condition "AX1" is in scope of a query for the key "A.1" even though
"A.1" is not a literal prefix of "AX1". -/
theorem condition_match_not_literal :
    eligibleToWrite "A.1" ⟨0, "AX1", [], false, 0, 0⟩ = true ∧
    literalPrefixMatch "A.1".data "AX1".data = false := by
  decide

/-- The characters that are special in the regex dialect MongoDB `$regex`
uses; a key containing none of them is matched literally. -/
def regexMetaChars : List Char :=
  ['.', '*', '+', '?', '^', '$', '|', '(', ')', '[', ']', '\\',
   Char.ofNat 123, Char.ofNat 125]

theorem regexAnchoredMatch_eq_literal (ps cs : List Char)
    (h : ∀ ch ∈ ps, ch ≠ '.') :
    regexAnchoredMatch ps cs = literalPrefixMatch ps cs := by
  induction ps generalizing cs with
  | nil => rfl
  | cons p pr ih =>
    cases cs with
    | nil => rfl
    | cons c cr =>
      have hp : p ≠ '.' := h p (List.mem_cons_self _ _)
      have hr : ∀ ch ∈ pr, ch ≠ '.' := fun ch hch => h ch (List.mem_cons_of_mem _ hch)
      simp [regexAnchoredMatch, literalPrefixMatch, regexCharMatch, hp, ih cr hr]

/-- C9 as amended: condition matching is anchored regex matching of the
pattern `^k` against the chain's condition; whenever the query key contains
no regex metacharacter, this coincides with literal string-prefix matching
(so "A" matches a chain "A.1" and not a chain "B.1"). -/
theorem condition_match_literal_of_no_meta (key cond : String)
    (hmeta : ∀ ch ∈ key.data, ch ∉ regexMetaChars) :
    conditionMatches key cond = literalPrefixMatch key.data cond.data := by
  have hdot : ∀ ch ∈ key.data, ch ≠ '.' := by
    intro ch hch heq
    apply hmeta ch hch
    rw [heq]
    decide
  exact regexAnchoredMatch_eq_literal _ _ hdot

/-- Witness for the amended C9: the key "A" has no metacharacter, matches
the chain condition "A.1" and does not match "B.1", exactly as literal
prefix matching does. -/
theorem condition_match_literal_witness :
    ((∀ ch ∈ "A".data, ch ∉ regexMetaChars) ∧
      conditionMatches "A" "A.1" = literalPrefixMatch "A".data "A.1".data ∧
      conditionMatches "A" "B.1" = literalPrefixMatch "A".data "B.1".data) ∧
    conditionMatches "A" "A.1" = true ∧ conditionMatches "A" "B.1" = false :=
  ⟨⟨by decide,
    condition_match_literal_of_no_meta "A" "A.1" (by decide),
    condition_match_literal_of_no_meta "A" "B.1" (by decide)⟩,
   by decide, by decide⟩

/-! ### C2: the messages/writes invariant over all reachable states -/

theorem mem_updateById {db : List Chain} {id : Nat} {f : Chain → Chain} {x : Chain}
    (hx : x ∈ updateById db id f) : x ∈ db ∨ ∃ c ∈ db, x = f c := by
  induction db with
  | nil => cases hx
  | cons a as ih =>
    by_cases ha : a.id = id
    · simp only [updateById, if_pos ha] at hx
      rcases List.mem_cons.mp hx with rfl | h
      · exact Or.inr ⟨a, List.mem_cons_self _ _, rfl⟩
      · exact Or.inl (List.mem_cons_of_mem _ h)
    · simp only [updateById, if_neg ha] at hx
      rcases List.mem_cons.mp hx with rfl | h
      · exact Or.inl (List.mem_cons_self _ _)
      · rcases ih h with h' | ⟨c, hc, hfc⟩
        · exact Or.inl (List.mem_cons_of_mem _ h')
        · exact Or.inr ⟨c, List.mem_cons_of_mem _ hc, hfc⟩

theorem setupRecords_inv : ∀ (conds : List String) (n start : Nat),
    ∀ c ∈ setupRecords conds n start, c.messages.length = c.writes := by
  intro conds
  induction conds with
  | nil =>
    intro n start c hc
    cases hc
  | cons cd cds ih =>
    intro n start c hc
    simp only [setupRecords, List.mem_append] at hc
    rcases hc with h | h
    · obtain ⟨j, hj, rfl⟩ := List.mem_map.mp h
      rfl
    · exact ih n (start + n) c h

theorem applyOp_preserves_inv {db : DB}
    (h : ∀ c ∈ db.chains, c.messages.length = c.writes) (op : Op) :
    ∀ c ∈ (applyOp db op).chains, c.messages.length = c.writes := by
  cases op with
  | setup conds n =>
    intro c hc
    simp only [applyOp, set_up_chains, List.mem_append] at hc
    rcases hc with hc | hc
    · exact h c hc
    · exact setupRecords_inv conds n db.nextId c hc
  | claim cond choice =>
    intro c hc
    simp only [applyOp] at hc
    cases hs : sample_chain_to_write db.chains cond choice with
    | none =>
      have heq : (assign_to_chain db.chains cond choice).2 = db.chains := by
        simp [assign_to_chain, hs]
      rw [heq] at hc
      exact h c hc
    | some s =>
      have hsmem : s ∈ db.chains := (minimalPool_sound (sampleFrom_mem hs)).1
      have heq : (assign_to_chain db.chains cond choice).2 =
          updateById db.chains s.id (fun _ => { s with busy := true }) := by
        simp [assign_to_chain, hs]
      rw [heq] at hc
      rcases mem_updateById hc with h' | ⟨d, _, rfl⟩
      · exact h c h'
      · exact h s hsmem
  | peek cond choice =>
    intro c hc
    exact h c hc
  | complete id msg =>
    intro c hc
    simp only [applyOp] at hc
    cases hf : find_one db.chains id with
    | none =>
      have heq : (add_message_to_chain db.chains id msg).2 = db.chains := by
        simp [add_message_to_chain, hf]
      rw [heq] at hc
      exact h c hc
    | some s =>
      by_cases hb : s.busy
      · have heq : (add_message_to_chain db.chains id msg).2 =
            updateById db.chains id
              (fun _ => { s with messages := s.messages ++ [msg], busy := false,
                                 writes := s.writes + 1, reads := s.reads + 1 }) := by
          simp [add_message_to_chain, hf, hb]
        rw [heq] at hc
        rcases mem_updateById hc with h' | ⟨d, _, rfl⟩
        · exact h c h'
        · have hs := h s (mem_of_find_one hf)
          simp [hs]
      · have heq : (add_message_to_chain db.chains id msg).2 = db.chains := by
          simp [add_message_to_chain, hf, hb]
        rw [heq] at hc
        exact h c hc
  | release id =>
    intro c hc
    simp only [applyOp] at hc
    cases hf : find_one db.chains id with
    | none =>
      have heq : (free_chain db.chains id).2 = db.chains := by
        simp [free_chain, hf]
      rw [heq] at hc
      exact h c hc
    | some s =>
      have heq : (free_chain db.chains id).2 =
          updateById db.chains id (fun x => { x with busy := false }) := by
        simp [free_chain, hf]
      rw [heq] at hc
      rcases mem_updateById hc with h' | ⟨d, hd, rfl⟩
      · exact h c h'
      · exact h d hd
  | recordRead id =>
    intro c hc
    simp only [applyOp] at hc
    cases hf : find_one db.chains id with
    | none =>
      have heq : (update_chain_read_count db.chains id).2 = db.chains := by
        simp [update_chain_read_count, hf]
      rw [heq] at hc
      exact h c hc
    | some s =>
      have heq : (update_chain_read_count db.chains id).2 =
          updateById db.chains id (fun _ => { s with reads := s.reads + 1 }) := by
        simp [update_chain_read_count, hf]
      rw [heq] at hc
      rcases mem_updateById hc with h' | ⟨d, _, rfl⟩
      · exact h c h'
      · exact h s (mem_of_find_one hf)

/-- C2: starting from the empty store, after any sequence of Setup, Claim,
Peek, Complete, Release and RecordRead requests (with arbitrary sample
choices), every chain in the store has `messages.length` equal to its
write counter. -/
theorem messages_length_eq_writes :
    ∀ (ops : List Op) (c : Chain), c ∈ (run ops).chains → c.messages.length = c.writes := by
  have key : ∀ (ops : List Op) (db : DB),
      (∀ c ∈ db.chains, c.messages.length = c.writes) →
      ∀ c ∈ (List.foldl applyOp db ops).chains, c.messages.length = c.writes := by
    intro ops
    induction ops with
    | nil => exact fun db h => h
    | cons op ops ih =>
      intro db h
      exact ih (applyOp db op) (applyOp_preserves_inv h op)
  intro ops c hc
  exact key ops DB.empty (fun c hc => absurd hc (List.not_mem_nil c)) c hc

/-- Witness for C2: after Setup, a Claim and a Complete, the single chain
holds one message and has write counter one. -/
theorem messages_length_eq_writes_witness :
    (⟨0, "A", ["hello"], false, 1, 1⟩ : Chain) ∈
      (run [Op.setup ["A"] 1, Op.claim "A" 0, Op.complete 0 "hello"]).chains ∧
    (⟨0, "A", ["hello"], false, 1, 1⟩ : Chain).messages.length =
      (⟨0, "A", ["hello"], false, 1, 1⟩ : Chain).writes :=
  ⟨by decide,
   messages_length_eq_writes [Op.setup ["A"] 1, Op.claim "A" 0, Op.complete 0 "hello"]
     ⟨0, "A", ["hello"], false, 1, 1⟩ (by decide)⟩

end ChainServer
